import Mathlib

/-!
Shallow embedding of the npc_agent core: the labeled tensor `Reference` and
its algebra (src/core/_npc_components/_reference.py) and the inference
ordering pipeline of `Plan.order_inference`
(src/core/_npc_components/_utils.py, src/core/_npc_components/_plan.py).

Modelling conventions.  A Python nested list becomes the inductive
`Tensor`: the reserved sentinel string "@#SKIP#@" becomes the constructor
`Tensor.skip` (the data model guarantees the sentinel is never a valid
domain value, so Python's `x != self.skip_value` test becomes a test of the
`skip` constructor), a domain value becomes `leaf`, a list becomes `node`.
Python exceptions become `Except.error` with a fixed message (Python
interpolates details into its messages; only the raising behaviour matters
here).  Python callables stored inside a tensor are modelled by a cell type
`gamma` together with a predicate `isC : gamma -> Bool` (Python's
`callable`) and an application function `call` returning `Except` (a raise
inside the called function is an `error`).
-/

namespace Npc

/-- A cell of a Python nested-list tensor: the sentinel "@#SKIP#@"
(`skip`), a domain value (`leaf`), or a nested list (`node`). -/
inductive Tensor (α : Type) : Type where
  | skip : Tensor α
  | leaf : α → Tensor α
  | node : List (Tensor α) → Tensor α

/-- Python's `x == "@#SKIP#@"` test on a cell (the sentinel is never a
valid domain value). -/
def Tensor.isSkip {α : Type} : Tensor α → Bool
  | .skip => true
  | _ => false

/-- Whether the sentinel occurs anywhere inside a nested structure (used to
state claims about absent-propagation; not part of the source). -/
def Tensor.containsSkip {α : Type} : Tensor α → Bool
  | .skip => true
  | .leaf _ => false
  | .node [] => false
  | .node (c :: cs) => c.containsSkip || (Tensor.node cs).containsSkip

/-- Python's `E` for-loop over a list that propagates the first raised
exception (used for loops whose body may raise). -/
def mapE {α β ε : Type} (f : α → Except ε β) : List α → Except ε (List β)
  | [] => .ok []
  | x :: xs =>
    match f x with
    | .error e => .error e
    | .ok y =>
      match mapE f xs with
      | .error e => .error e
      | .ok ys => .ok (y :: ys)

/-- `Reference._create_nested_list(shape, initial_value)`: a nested list of
the given shape with every leaf the initial value. -/
def createNested {α : Type} : List Nat → Tensor α → Tensor α
  | [], init => init
  | n :: rest, init => .node (List.replicate n (createNested rest init))

/-- `Reference._pad_tensor(tensor, target_shape)`: pad to the target shape.
A non-list (sentinel or scalar) at a level where the shape demands a list
is replaced by a list of `target_shape[0]` sentinels (one level only, as in
the source: `[self.skip_value] * current_dim`). -/
def padTensor {α : Type} : List Nat → Tensor α → Tensor α
  | [], t => t
  | n :: _, .skip => .node (List.replicate n .skip)
  | n :: _, .leaf _ => .node (List.replicate n .skip)
  | n :: rest, .node cs =>
    .node ((List.range n).map (fun i =>
      padTensor rest (if i < cs.length then cs.getD i .skip else .skip)))

/-- An axis-keyword index resolved against the axis list: `some i` is an
integer position, `none` is the implicit `slice(None)` for an axis the
keywords do not mention. -/
abbrev PIdx := List (Option Nat)

/-- `Reference._get_element(data, indices)`.  An integer index that is out
of range, or that hits the sentinel, yields the sentinel; a slice rebuilds
the list, turning sentinel children into sentinels.  Indexing *into* a
sentinel or a scalar (possible only on malformed data: Python would raise
`TypeError` from `len`, or would index into the sentinel's characters and
then raise on the nested access) is modelled as an error. -/
def getElem! {α : Type} : PIdx → Tensor α → Except String (Tensor α)
  | [], t => .ok t
  | some i :: rest, .node cs =>
    if i < cs.length then
      (if (cs.getD i .skip).isSkip then .ok .skip else getElem! rest (cs.getD i .skip))
    else .ok .skip
  | none :: rest, .node cs =>
    match mapE (fun c => if c.isSkip then .ok .skip else getElem! rest c) cs with
    | .error e => .error e
    | .ok ds => .ok (.node ds)
  | _ :: _, .skip => .error "TypeError"
  | _ :: _, .leaf _ => .error "TypeError"

/-- Python list extension `data.extend([skip] * (i - len(data) + 1))`
performed by `_set_element` before an out-of-range write. -/
def extendTo {α : Type} (cs : List (Tensor α)) (i : Nat) : List (Tensor α) :=
  if i < cs.length then cs else cs ++ List.replicate (i + 1 - cs.length) .skip

/-- `Reference._set_element(data, indices, value)`.  The empty-index branch
is reachable only for a rank-0 tensor; there Python raises `ValueError` for
a list value and (for the scalar values that occur in this development)
`TypeError` from `data[:] = value` on a non-list `data`.  Writing through
the sentinel or a scalar (malformed data) always ends in a raise in Python
(strings reject item assignment and `extend`; scalars reject `len`) and is
an error here. -/
def setElem {α : Type} : PIdx → Tensor α → Tensor α → Except String (Tensor α)
  | [], _, .node _ => .error "ValueError: Cannot set a list as a leaf value"
  | [], _, _ => .error "TypeError"
  | some i :: rest, .node cs, v =>
    if rest.isEmpty then .ok (.node ((extendTo cs i).set i v))
    else
      match setElem rest (if (extendTo cs i).getD i .skip |>.isSkip then .node []
                          else (extendTo cs i).getD i .skip) v with
      | .error e => .error e
      | .ok c => .ok (.node ((extendTo cs i).set i c))
  | none :: rest, .node cs, v =>
    if rest.isEmpty then .ok (.node (cs.map (fun _ => v)))
    else
      match mapE (fun c => setElem rest (if c.isSkip then .node [] else c) v) cs with
      | .error e => .error e
      | .ok ds => .ok (.node ds)
  | _ :: _, .skip, _ => .error "TypeError"
  | _ :: _, .leaf _, _ => .error "TypeError"

/-- The `Reference` class: ordered axis names, declared shape, nested data.
The `skip_value` field is always its default "@#SKIP#@" in the repository
and is kept implicit in the `Tensor.skip` constructor. -/
structure Reference (α : Type) : Type where
  axes : List String
  shape : List Nat
  data : Tensor α

/-- The keyword validation loop shared by `get` and `set`: every supplied
axis name must be a known axis. -/
def keysValid (axes : List String) (kwargs : List (String × Nat)) : Bool :=
  kwargs.all (fun kv => axes.contains kv.1)

/-- Resolve axis keywords to positional indices:
`kwargs.get(axis, slice(None))` for each axis in order. -/
def resolveIdx (axes : List String) (kwargs : List (String × Nat)) : PIdx :=
  axes.map (fun a => List.lookup a kwargs)

/-- `Reference.get(**kwargs)`: raises `KeyError` for an unknown axis name,
otherwise reads through `_get_element`. -/
def Reference.get {α : Type} (r : Reference α) (kwargs : List (String × Nat)) :
    Except String (Tensor α) :=
  if keysValid r.axes kwargs then getElem! (resolveIdx r.axes kwargs) r.data
  else .error "KeyError"

/-- `Reference.set(value, **kwargs)`: raises `KeyError` for an unknown axis
name, otherwise writes through `_set_element`.  The mutation of `self.data`
is modelled by returning the updated reference; `self.shape` is not
touched, exactly as in the source. -/
def Reference.set {α : Type} (r : Reference α) (kwargs : List (String × Nat))
    (v : Tensor α) : Except String (Reference α) :=
  if keysValid r.axes kwargs then
    match setElem (resolveIdx r.axes kwargs) r.data v with
    | .error e => .error e
    | .ok d => .ok ⟨r.axes, r.shape, d⟩
  else .error "KeyError"

/-- `self.shape[self.axes.index(axis)]` (total via `getD`; all uses are
guarded by membership of the axis). -/
def axisExtent {α : Type} (r : Reference α) (a : String) : Nat :=
  r.shape.getD (r.axes.indexOf a) 0

/-- Duplicate-freedom of a name list, Python's
`len(l) == len(set(l))`. -/
def nodupB : List String → Bool
  | [] => true
  | x :: xs => !(xs.contains x) && nodupB xs

/-- The recursive grid builder shared by `slice`, `cross_action`,
`cross_product` and `element_action` (`build_data` / `build_sliced_data`):
one nested list level per remaining extent, the cell function receiving the
accumulated index path. -/
def gridM {α : Type} : List Nat → (List Nat → Except String (Tensor α)) →
    Except String (Tensor α)
  | [], f => f []
  | n :: rest, f =>
    match mapE (fun i => gridM rest (fun ix => f (i :: ix))) (List.range n) with
    | .error e => .error e
    | .ok ds => .ok (.node ds)

/-- Exception-free image of `gridM`, used to state what the builders
produce. -/
def grid {α : Type} : List Nat → (List Nat → Tensor α) → Tensor α
  | [], f => f []
  | n :: rest, f => .node ((List.range n).map (fun i => grid rest (fun ix => f (i :: ix))))

/-- The collapse step of `Reference.slice`: a sub-tensor that *is* the
sentinel, or whose top-level elements contain the sentinel, becomes the
sentinel; anything else passes through unchanged. -/
def collapseTop {α : Type} : Tensor α → Tensor α
  | .skip => .skip
  | .node cs => if cs.any Tensor.isSkip then .skip else .node cs
  | .leaf a => .leaf a

/-- `Reference.slice(*selected_axes)`: validates the selection, re-derives
the shape, and fills a new reference whose cell at each fully-specified
selected index is the collapsed `self.get` of that index (unselected axes
become slices); the result is padded to the new shape exactly as
`Reference(...)._replace_data(sliced_data)` does. -/
def Reference.slice {α : Type} (r : Reference α) (sel : List String) :
    Except String (Reference α) :=
  if !(sel.all (fun a => r.axes.contains a)) then .error "KeyError"
  else if !(nodupB sel) then .error "ValueError: Duplicate axes in selection"
  else if sel.isEmpty then .error "ValueError: At least one axis must be selected"
  else
    match gridM (sel.map (axisExtent r))
        (fun ix => (r.get (sel.zip ix)).map collapseTop) with
    | .error e => .error e
    | .ok d => .ok ⟨sel, sel.map (axisExtent r), padTensor (sel.map (axisExtent r)) d⟩

/-- Whether a retrieved cell of the function operand would pass Python's
`callable(func)` test: only a stored value `g` with `isC g` is callable; a
list (a `node`) never is. -/
def cellCallable {γ : Type} (isC : γ → Bool) : Tensor γ → Bool
  | .leaf g => isC g
  | _ => false

/-- The dict comprehension `{axis: index_dict[axis] for axis in ref.axes}`
restricting a fully-specified index to one operand's axes. -/
def restrictIdx (axes : List String) (idx : List (String × Nat)) : List (String × Nat) :=
  axes.filterMap (fun a => (List.lookup a idx).map (fun v => (a, v)))

/-- The leaf case of `cross_action`'s `build_data` (lines 351-373 of
_reference.py): fetch the function cell from `A` and the input cell from
`B`; if either is the sentinel the cell is the sentinel; a non-callable
cell raises `TypeError` (outside the `try`); inside the `try`, a raise from
the call, or a non-list result (whose deliberate `TypeError` is caught by
the enclosing `except Exception`), degrades the cell to the sentinel, and a
list result containing the sentinel becomes the sentinel. -/
def crossActionCell {γ β : Type} (isC : γ → Bool)
    (call : γ → Tensor β → Except String (Tensor β))
    (A : Reference γ) (B : Reference β) (idx : List (String × Nat)) :
    Except String (Tensor β) :=
  match A.get (restrictIdx A.axes idx) with
  | .error e => .error e
  | .ok func =>
    match B.get (restrictIdx B.axes idx) with
    | .error e => .error e
    | .ok inputVal =>
      if func.isSkip || inputVal.isSkip then .ok .skip
      else
        match func with
        | .leaf g =>
          if isC g then
            match call g inputVal with
            | .error _ => .ok .skip
            | .ok (.node rs) => .ok (if rs.any Tensor.isSkip then .skip else .node rs)
            | .ok _ => .ok .skip
          else .error "TypeError: element in A is not a callable function"
        | _ => .error "TypeError: element in A is not a callable function"

/-- Combined axes of two operands: A's axes, then B's axes not already
present, in first-seen order. -/
def combineAxes (as bs : List String) : List String :=
  as ++ bs.filter (fun a => !(as.contains a))

/-- The combined-shape loop of `cross_action`: a shared axis must have
equal extents in both operands (`ValueError` otherwise). -/
def combinedShapeCA {γ β : Type} (A : Reference γ) (B : Reference β) :
    Except String (List Nat) :=
  mapE (fun a =>
      if A.axes.contains a && B.axes.contains a then
        (if axisExtent A a == axisExtent B a then .ok (axisExtent A a)
         else .error "ValueError: Shape mismatch for shared axis")
      else if A.axes.contains a then .ok (axisExtent A a)
      else .ok (axisExtent B a))
    (combineAxes A.axes B.axes)

/-- Python truthiness of the entries met by `cross_action`'s
first-child descent: a list is truthy iff non-empty; the sentinel string is
a non-empty string, hence truthy.  (A scalar leaf is never met there:
the descent stops at cell depth, and cells are lists or the sentinel.) -/
def Tensor.truthy {α : Type} : Tensor α → Bool
  | .node cs => !cs.isEmpty
  | .skip => true
  | .leaf _ => true

/-- `retrieved_entry[0]` on the entries met by the first-child descent. -/
def Tensor.headD {α : Type} : Tensor α → Tensor α
  | .node cs => cs.getD 0 .skip
  | t => t

/-- The first-child descent of `cross_action` (lines 384-388): walk
`entry = entry[0]` once per combined axis, stopping early at a falsy
entry. -/
def firstEntry {α : Type} : Nat → Tensor α → Tensor α
  | 0, t => t
  | n + 1, t => if t.truthy then firstEntry n t.headD else t

/-- Python `len` of the entry ending the descent: the length of a list,
and 8 — the length of the string "@#SKIP#@" — for the sentinel.  (`len` of
a scalar would raise; cells are lists or the sentinel, so that case is
unreachable and mapped to 0.) -/
def Tensor.pyLen {α : Type} : Tensor α → Nat
  | .node cs => cs.length
  | .skip => 8
  | .leaf _ => 0

/-- `cross_action(A, B, new_axis_name)`: union the axes (A first), check
shared extents, fill the combined grid through `crossActionCell`, read the
trailing-axis extent off the first-child descent, and pad the data to the
extended shape exactly as `result_ref._replace_data(new_data)` does.  (The
`isinstance(..., Reference)` guard is enforced by typing here.) -/
def cross_action {γ β : Type} (isC : γ → Bool)
    (call : γ → Tensor β → Except String (Tensor β))
    (A : Reference γ) (B : Reference β) (newAxisName : String) :
    Except String (Reference β) :=
  match combinedShapeCA A B with
  | .error e => .error e
  | .ok cShape =>
    match gridM cShape
        (fun ix => crossActionCell isC call A B ((combineAxes A.axes B.axes).zip ix)) with
    | .error e => .error e
    | .ok newData =>
      (fun entry =>
        (fun trailing =>
          .ok (⟨combineAxes A.axes B.axes ++ [newAxisName], cShape ++ [trailing],
                padTensor (cShape ++ [trailing]) newData⟩ : Reference β))
        (if entry.truthy then entry.pyLen else 0))
      (firstEntry cShape.length newData)

/-- Axis union over a list of operands in first-seen order
(`element_action` / `cross_product`). -/
def collectAxes {α : Type} (refs : List (Reference α)) : List String :=
  refs.foldl (fun acc r => acc ++ r.axes.filter (fun a => !(acc.contains a))) []

/-- The axis-compatibility loop of `element_action`: all operands carrying
an axis must agree on its extent. -/
def elementShape {α : Type} (refs : List (Reference α)) : Except String (List Nat) :=
  mapE (fun a =>
      match (refs.filter (fun r => r.axes.contains a)).map (fun r => axisExtent r a) with
      | [] => .error "ValueError: Shape mismatch"
      | s :: rest =>
        if rest.all (fun x => x == s) then .ok s
        else .error "ValueError: Shape mismatch")
    (collectAxes refs)

/-- The leaf case of `element_action`'s `build_data` (lines 439-461 of
_reference.py): gather one cell per operand (a raise from `get` would
propagate); inside the `try`, any sentinel among them makes the cell the
sentinel, otherwise `f` is applied — passing the index mapping as well when
`index_awareness` is set — and a raise from `f` degrades the cell to the
sentinel. -/
def elementCell {α : Type}
    (f : List (Tensor α) → Option (List (String × Nat)) → Except String (Tensor α))
    (refs : List (Reference α)) (indexAware : Bool) (idx : List (String × Nat)) :
    Except String (Tensor α) :=
  match mapE (fun r => r.get (restrictIdx r.axes idx)) refs with
  | .error e => .error e
  | .ok elems =>
    if elems.any Tensor.isSkip then .ok .skip
    else
      match f elems (if indexAware then some idx else none) with
      | .error _ => .ok .skip
      | .ok v => .ok v

/-- `element_action(f, references, index_awareness)`: validate the operand
list, union and check the axes, fill the combined grid through
`elementCell`, and pad to the combined shape as
`Reference(...)._replace_data(new_data)` does. -/
def element_action {α : Type}
    (f : List (Tensor α) → Option (List (String × Nat)) → Except String (Tensor α))
    (refs : List (Reference α)) (indexAware : Bool) : Except String (Reference α) :=
  if refs.isEmpty then .error "ValueError: At least one reference must be provided"
  else
    match elementShape refs with
    | .error e => .error e
    | .ok cShape =>
      match gridM cShape
          (fun ix => elementCell f refs indexAware ((collectAxes refs).zip ix)) with
      | .error e => .error e
      | .ok d => .ok ⟨collectAxes refs, cShape, padTensor cShape d⟩

/-- An entry of the `Plan.inference_registry`: the components that
`add_inference` serialises into the registry key
`str([perception_names, cognition_name, inferred_name])` and that
`_build_concept_mappings` recovers with `ast.literal_eval`.  The
registry's dict-value iteration order is modelled by the list order. -/
structure InferenceC : Type where
  perception : List String
  cognition : String
  inferred : String
deriving DecidableEq, Repr

/-- First-seen deduplication, the observable content of Python's `set`
construction over input names (only membership and cardinality of these
sets are ever observed by the pipeline; see the note at
`dependencyProducers`). -/
def dedupFirst (l : List String) : List String :=
  l.foldl (fun acc x => if acc.contains x then acc else acc ++ [x]) []

/-- `set(perception_names) | {actuation_name}`: the input-concept set of an
inference. -/
def inputConcepts (inf : InferenceC) : List String :=
  dedupFirst (inf.perception ++ [inf.cognition])

/-- `_get_initial_concepts`: the declared input names plus every concept
whose registry entry already carries a reference (the concept registry is
modelled as name/has-reference pairs, the only fields this function
reads). -/
def getInitialConcepts (inputNames : List String)
    (conceptRegistry : List (String × Bool)) : List String :=
  inputNames ++ (conceptRegistry.filter (fun p => p.2)).map (fun p => p.1)

/-- Errors raised by the ordering pipeline, with the data Python
interpolates into the messages: `cyclic` carries, per stranded inference,
its inferred concept and its (full) input-concept set, exactly what
`_validate_topological_order` prints. -/
inductive OrderErr : Type where
  | dupProducer : String → OrderErr
  | unresolvable : String → OrderErr
  | cyclic : List (String × List String) → OrderErr
deriving DecidableEq, Repr

/-- The producer map of `_build_concept_mappings`: inferred name to
producing inference, `ValueError` on a second producer for the same name.
(The registry-key consistency check against `concept_to_infer` is a
tautology here because the entry *is* its component triple.) -/
def buildProducers : List InferenceC → Except OrderErr (List (String × InferenceC))
  | [] => .ok []
  | inf :: rest =>
    match buildProducers rest with
    | .error e => .error e
    | .ok ps =>
      if ps.any (fun p => p.1 == inf.inferred) then .error (.dupProducer inf.inferred)
      else .ok ((inf.inferred, inf) :: ps)

/-- The dependency set of one inference in `_build_dependency_graph`: the
producers of its non-initial input concepts (`ValueError` when no producer
exists).  Python accumulates them in a `set`; since distinct concepts have
distinct producers and the inputs are already deduplicated, the list below
has the same elements and cardinality. -/
def dependencyProducers (initial : List String)
    (producers : List (String × InferenceC)) (inf : InferenceC) :
    Except OrderErr (List InferenceC) :=
  mapE (fun c =>
      match List.lookup c producers with
      | some p => .ok p
      | none => .error (.unresolvable c))
    ((inputConcepts inf).filter (fun c => !(initial.contains c)))

/-- One in-degree decrement pass of Kahn's loop over the neighbours of the
dequeued node, collecting — in adjacency order — the neighbours whose
degree reaches zero (they are appended to the queue). -/
def processNeighbors : List InferenceC → List (InferenceC × Nat) →
    List (InferenceC × Nat) × List InferenceC
  | [], deg => (deg, [])
  | nb :: rest, deg =>
    (fun d =>
      (fun res =>
        (res.1, (if d == 0 then [nb] else []) ++ res.2))
      (processNeighbors rest
        (deg.map (fun p => if p.1 == nb then (p.1, d) else p))))
    (((List.lookup nb deg).getD 0) - 1)

/-- The FIFO loop of `_topological_sort` (Kahn's algorithm).  The fuel is
an upper bound on the number of dequeues — each inference enters the queue
at most once — and is instantiated with `registry.length + 1` by
`order_inference`, which is never exhausted. -/
def kahnLoop (graph : InferenceC → List InferenceC) :
    Nat → List (InferenceC × Nat) → List InferenceC → List InferenceC
  | 0, _, _ => []
  | _ + 1, _, [] => []
  | fuel + 1, deg, q :: qs =>
    (fun res => q :: kahnLoop graph fuel res.1 (qs ++ res.2))
    (processNeighbors (graph q) deg)

/-- `Plan.order_inference` assembled from the `_utils` helpers:
initial concepts, producer map, dependency graph with in-degrees,
Kahn's sort seeded with the zero-in-degree inferences in registry order,
and the final length validation raising the cyclic-dependency error that
lists each stranded inference with its requirements. -/
def order_inference (inputNames : List String)
    (conceptRegistry : List (String × Bool)) (registry : List InferenceC) :
    Except OrderErr (List InferenceC) :=
  match buildProducers registry with
  | .error e => .error e
  | .ok producers =>
    match mapE (fun inf =>
        (dependencyProducers (getInitialConcepts inputNames conceptRegistry)
          producers inf).map (fun ds => (inf, ds))) registry with
    | .error e => .error e
    | .ok withDeps =>
      (fun graph deg =>
        (fun ordered =>
          if ordered.length == registry.length then .ok ordered
          else .error (.cyclic
            ((registry.filter (fun inf => !(ordered.contains inf))).map
              (fun inf => (inf.inferred, inputConcepts inf)))))
        (kahnLoop graph (registry.length + 1) deg
          (registry.filter (fun inf => ((List.lookup inf deg).getD 0) == 0))))
      (fun d => (withDeps.filter (fun p => p.2.contains d)).map (fun p => p.1))
      (withDeps.map (fun p => (p.1, p.2.length)))

/-- Shape-regularity of the nested data: at every level whose shape is not
exhausted the entry is either the sentinel or a list of exactly the
declared extent of regular children; a scalar may only sit at leaf depth.
This is the invariant `__init__`, the `tensor` setter and `_replace_data`
establish. -/
def Tensor.regular {α : Type} : Tensor α → List Nat → Bool
  | _, [] => true
  | .skip, _ :: _ => true
  | .node cs, n :: rest => cs.length == n && cs.all (fun c => c.regular rest)
  | .leaf _, _ :: _ => false

/-- Depth-regularity alone: above the leaf depth every entry is the
sentinel or a list (of depth-regular children), with no constraint on
lengths.  `set` preserves this while it may break `regular`. -/
def Tensor.nodeAbove {α : Type} : Tensor α → Nat → Bool
  | _, 0 => true
  | .skip, _ + 1 => true
  | .node cs, n + 1 => cs.all (fun c => c.nodeAbove n)
  | .leaf _, _ + 1 => false

/-- Well-formedness of a reference: axes and shape have equal length and
the data is shape-regular with a list at the root whenever the rank is
positive (every reference the repository constructs satisfies this). -/
def Reference.wfB {α : Type} (r : Reference α) : Bool :=
  r.axes.length == r.shape.length && r.data.regular r.shape &&
    (r.shape.isEmpty || !r.data.isSkip)

/-- Positionwise strict bound of an index list by a dimension list (same
lengths). -/
def allLt (ixs dims : List Nat) : Bool :=
  ixs.length == dims.length && (ixs.zip dims).all (fun p => p.1 < p.2)

/-- Some position of the index list reaches or exceeds the corresponding
extent. -/
def hasOob (ixs dims : List Nat) : Bool :=
  (ixs.zip dims).any (fun p => p.2 ≤ p.1)

/-! Concrete instances used by the claims (the tensors of the spec's worked
examples, built so that their data equals what the repository's
constructor-plus-`set` sequences produce). -/

/-- The elementwise-addition cell function of the `element_action`
example: Python's `add(a, b) = a + b` on the integer cells it receives (a
non-numeric cell pattern would raise in Python and is an error here). -/
def addCell : List (Tensor Int) → Option (List (String × Nat)) → Except String (Tensor Int) :=
  fun elems _ =>
    match elems with
    | [.leaf a, .leaf b] => .ok (.leaf (a + b))
    | _ => .error "TypeError"

/-- Operand A of the `element_action` example: [[1,2],[ABSENT,4]] on axes
(x, y), shape (2, 2). -/
def c3A : Reference Int :=
  ⟨["x", "y"], [2, 2], .node [.node [.leaf 1, .leaf 2], .node [.skip, .leaf 4]]⟩

/-- Operand B of the `element_action` example: [[3,4],[5,6]] on axes
(x, y), shape (2, 2). -/
def c3B : Reference Int :=
  ⟨["x", "y"], [2, 2], .node [.node [.leaf 3, .leaf 4], .node [.leaf 5, .leaf 6]]⟩

/-- Cells of the function operands are Python callables: modelled as Lean
functions on cells, applied by `applyFn`, all passing `callable`. -/
def applyFn : (Tensor Int → Except String (Tensor Int)) → Tensor Int →
    Except String (Tensor Int) :=
  fun g t => g t

/-- Python's `callable` on the stored closures: always true. -/
def alwaysCallable : (Tensor Int → Except String (Tensor Int)) → Bool :=
  fun _ => true

/-- The `functions` operand of the `cross_action` example: axis x of
extent 3 with cells z -> [z, 2z], z -> [z+1, z-1], ABSENT.  (The lambdas
are only ever applied to integer cells; other shapes would raise in Python
and are errors here.) -/
def c4funcs : Reference (Tensor Int → Except String (Tensor Int)) :=
  ⟨["x"], [3], .node [
    .leaf (fun t =>
      match t with
      | .leaf z => .ok (.node [.leaf z, .leaf (2 * z)])
      | _ => .error "TypeError"),
    .leaf (fun t =>
      match t with
      | .leaf z => .ok (.node [.leaf (z + 1), .leaf (z - 1)])
      | _ => .error "TypeError"),
    .skip]⟩

/-- The `values` operand of the `cross_action` example: axis y of extent 3
with cells 5, 3, ABSENT. -/
def c4vals : Reference Int := ⟨["y"], [3], .node [.leaf 5, .leaf 3, .skip]⟩

/-- A function operand whose single cell returns the non-list value 5. -/
def c2funcs : Reference (Tensor Int → Except String (Tensor Int)) :=
  ⟨["x"], [1], .node [.leaf (fun _ => .ok (.leaf 5))]⟩

/-- A value operand with the single cell 1. -/
def c2vals : Reference Int := ⟨["y"], [1], .node [.leaf 1]⟩

/-- A function operand whose single cell is the plain integer 0 — not a
callable (`callable(0)` is false in Python). -/
def c1A : Reference Int := ⟨["x"], [1], .node [.leaf 0]⟩

/-- A function operand whose single cell is ABSENT. -/
def c1Askip : Reference Int := ⟨["x"], [1], .node [.skip]⟩

/-- Python's `callable` on plain integers: always false. -/
def neverCallable : Int → Bool := fun _ => false

/-- Application of a non-callable: never reached behind the `callable`
guard; modelled as a raise. -/
def noCall : Int → Tensor Int → Except String (Tensor Int) :=
  fun _ _ => .error "TypeError"

/-- A rank-3 reference on axes (x, y, z), shape (1, 2, 2), whose only
ABSENT cell sits at (0, 0, 1) — strictly below the top level of the
sub-tensor at x = 0. -/
def c6r : Reference Int :=
  ⟨["x", "y", "z"], [1, 2, 2],
   .node [.node [.node [.leaf 1, .skip], .node [.leaf 2, .leaf 3]]]⟩

/-- A rank-1 reference of three scalar cells. -/
def c9r : Reference Int := ⟨["x"], [3], .node [.leaf 0, .leaf 0, .leaf 0]⟩

/-- The rank-0 reference `Reference([], (), initial_value=0)`: zero axes,
data the bare initial value. -/
def c5r0 : Reference Int := ⟨[], [], .leaf 0⟩

/-- A 2 by 2 reference with one ABSENT cell, used to instantiate the
general round-trip and projection theorems. -/
def c5wr : Reference Int :=
  ⟨["x", "y"], [2, 2], .node [.node [.leaf 1, .leaf 2], .node [.skip, .leaf 4]]⟩

/-- The three inferences of the ordering example: B from A (cognition c1),
C from B (cognition c2), D from A and C (cognition c3). -/
def infB : InferenceC := ⟨["A"], "c1", "B"⟩

/-- The inference producing C from B. -/
def infC : InferenceC := ⟨["B"], "c2", "C"⟩

/-- The inference producing D from A and C. -/
def infD : InferenceC := ⟨["A", "C"], "c3", "D"⟩

/-- The concept registry of the ordering example: no concept carries a
reference yet, so the initial concepts are exactly the declared inputs
A, c1, c2, c3. -/
def c7concepts : List (String × Bool) :=
  [("A", false), ("B", false), ("C", false), ("D", false),
   ("c1", false), ("c2", false), ("c3", false)]

/-- The declared inputs of the ordering example: A and every cognition
concept. -/
def c7inputs : List String := ["A", "c1", "c2", "c3"]

/-- First inference of the cycle example: P1 from P2 (cognition c1). -/
def cyc1 : InferenceC := ⟨["P2"], "c1", "P1"⟩

/-- Second inference of the cycle example: P2 from P1 (cognition c2). -/
def cyc2 : InferenceC := ⟨["P1"], "c2", "P2"⟩

/-- Concept registry of the cycle example. -/
def c8concepts : List (String × Bool) :=
  [("P1", false), ("P2", false), ("c1", false), ("c2", false)]

/-- Declared inputs of the cycle example: the two cognition concepts. -/
def c8inputs : List String := ["c1", "c2"]

/-- The `cross_action` worked example of the spec: the function tensor on
axis x applied to the value tensor on axis y with trailing axis
"result". -/
def c4result : Except String (Reference Int) :=
  cross_action alwaysCallable applyFn c4funcs c4vals "result"

/-- Whether a `get` outcome is an ABSENT cell (used to state per-cell
absence over a finite index range). -/
def okIsSkip {α : Type} (x : Except String (Tensor α)) : Bool :=
  match x with
  | .ok t => t.isSkip
  | .error _ => false

/-! Helper lemmas about the embedding. -/

theorem Tensor.isSkip_iff {α : Type} (t : Tensor α) : t.isSkip = true ↔ t = Tensor.skip := by
  cases t <;> simp [Tensor.isSkip]

theorem Tensor.isSkip_eq_false {α : Type} (t : Tensor α) :
    t.isSkip = false ↔ t ≠ Tensor.skip := by
  cases t <;> simp [Tensor.isSkip]

theorem Tensor.isSkip_skip {α : Type} : (Tensor.skip : Tensor α).isSkip = true := rfl

theorem Tensor.isSkip_leaf {α : Type} (a : α) : (Tensor.leaf a).isSkip = false := rfl

theorem Tensor.isSkip_node {α : Type} (cs : List (Tensor α)) :
    (Tensor.node cs).isSkip = false := rfl

theorem mapE_ok_map {α β ε : Type} (f : α → Except ε β) (g : α → β) :
    ∀ l : List α, (∀ x ∈ l, f x = .ok (g x)) → mapE f l = .ok (l.map g) := by
  intro l
  induction l with
  | nil => intro _; rfl
  | cons x xs ih =>
    intro h
    have hx := h x (by simp)
    have hxs := ih (fun y hy => h y (by simp [hy]))
    simp [mapE, hx, hxs]

theorem mapE_exists_ok {α β ε : Type} (f : α → Except ε β) :
    ∀ l : List α, (∀ x ∈ l, ∃ y, f x = .ok y) → ∃ ys, mapE f l = .ok ys := by
  intro l
  induction l with
  | nil => intro _; exact ⟨[], rfl⟩
  | cons x xs ih =>
    intro h
    obtain ⟨y, hy⟩ := h x (by simp)
    obtain ⟨ys, hys⟩ := ih (fun z hz => h z (by simp [hz]))
    exact ⟨y :: ys, by simp [mapE, hy, hys]⟩

theorem nodupB_cons (x : String) (xs : List String) :
    nodupB (x :: xs) = true ↔ x ∉ xs ∧ nodupB xs = true := by
  simp [nodupB]

theorem allLt_nil_iff (ixs : List Nat) : allLt ixs [] = true ↔ ixs = [] := by
  cases ixs <;> simp [allLt]

theorem allLt_cons (i n : Nat) (is ns : List Nat) :
    allLt (i :: is) (n :: ns) = true ↔ i < n ∧ allLt is ns = true := by
  simp only [allLt, List.length_cons, List.zip_cons_cons, List.all_cons, Bool.and_eq_true,
    beq_iff_eq, Nat.add_right_cancel_iff, decide_eq_true_eq]
  constructor
  · intro h
    exact ⟨h.2.1, h.1, h.2.2⟩
  · intro h
    exact ⟨h.2.1, h.1, h.2.2⟩

theorem allLt_length {ixs dims : List Nat} (h : allLt ixs dims = true) :
    ixs.length = dims.length := by
  simp [allLt] at h
  exact h.1

theorem hasOob_cons (i n : Nat) (is ns : List Nat) :
    hasOob (i :: is) (n :: ns) = true ↔ n ≤ i ∨ hasOob is ns = true := by
  simp [hasOob]

theorem lookup_zip_self :
    ∀ (axes : List String) (ixs : List Nat), nodupB axes = true →
      axes.length = ixs.length →
      resolveIdx axes (axes.zip ixs) = ixs.map some := by
  intro axes
  induction axes with
  | nil =>
    intro ixs _ hlen
    cases ixs with
    | nil => rfl
    | cons i is => simp at hlen
  | cons a as ih =>
    intro ixs hnd hlen
    cases ixs with
    | nil => simp at hlen
    | cons i is =>
      obtain ⟨hmem, hnd2⟩ := (nodupB_cons a as).1 hnd
      have hlen2 : as.length = is.length := by simpa using hlen
      have head : List.lookup a ((a, i) :: as.zip is) = some i := by
        rw [List.lookup_cons]
        simp
      have tail : ∀ x ∈ as, List.lookup x ((a, i) :: as.zip is) = List.lookup x (as.zip is) := by
        intro x hx
        have hne : x ≠ a := fun he => hmem (he ▸ hx)
        rw [List.lookup_cons]
        simp [beq_eq_false_iff_ne.2 hne]
      have := ih is hnd2 hlen2
      simp only [resolveIdx] at this ⊢
      simp only [List.zip_cons_cons, List.map_cons, head]
      rw [List.map_congr_left tail, this]

theorem keysValid_of_mem (axes : List String) (kwargs : List (String × Nat))
    (h : ∀ kv ∈ kwargs, kv.1 ∈ axes) : keysValid axes kwargs = true := by
  simp only [keysValid, List.all_eq_true]
  intro kv hkv
  simpa using h kv hkv

theorem keysValid_zip (axes sel : List String) (ixs : List Nat)
    (hsub : ∀ a ∈ sel, a ∈ axes) : keysValid axes (sel.zip ixs) = true := by
  apply keysValid_of_mem
  intro kv hkv
  exact hsub kv.1 (List.of_mem_zip hkv).1

theorem getD_map_range {α : Type} (n i : Nat) (f : Nat → α) (d : α) (h : i < n) :
    ((List.range n).map f).getD i d = f i := by
  have hlen : i < ((List.range n).map f).length := by simpa using h
  rw [List.getD_eq_getElem _ _ hlen, List.getElem_map, List.getElem_range]

theorem getD_set_self {α : Type} (l : List α) (i : Nat) (v d : α) (h : i < l.length) :
    ((l.set i v).getD i d) = v := by
  have hlen : i < (l.set i v).length := by simpa using h
  rw [List.getD_eq_getElem _ _ hlen, List.getElem_set_self]

theorem extendTo_lt {α : Type} (cs : List (Tensor α)) (i : Nat) :
    i < (extendTo cs i).length := by
  by_cases h : i < cs.length
  · simp [extendTo, h]
  · simp only [extendTo, h, if_false, List.length_append, List.length_replicate]
    omega

theorem extendTo_getD {α : Type} (cs : List (Tensor α)) (i : Nat) :
    (extendTo cs i).getD i .skip =
      (if i < cs.length then cs.getD i .skip else .skip) := by
  by_cases h : i < cs.length
  · simp [extendTo, h]
  · have hle : cs.length ≤ i := by omega
    have hlen : i < (cs ++ List.replicate (i + 1 - cs.length) (Tensor.skip : Tensor α)).length := by
      simp only [List.length_append, List.length_replicate]
      omega
    simp only [extendTo, h, if_false]
    rw [List.getD_eq_getElem _ _ hlen, List.getElem_append_right hle,
      List.getElem_replicate]

theorem extendTo_of_lt {α : Type} (cs : List (Tensor α)) (i : Nat) (h : i < cs.length) :
    extendTo cs i = cs := by
  simp [extendTo, h]

theorem getD_mem {α : Type} (cs : List (Tensor α)) (i : Nat) (d : Tensor α)
    (h : i < cs.length) : cs.getD i d ∈ cs := by
  rw [List.getD_eq_getElem _ _ h]
  exact List.getElem_mem h

theorem regular_nodeAbove {α : Type} :
    ∀ (shape : List Nat) (t : Tensor α), t.regular shape = true →
      t.nodeAbove shape.length = true := by
  intro shape
  induction shape with
  | nil => intro t _; cases t <;> simp [Tensor.nodeAbove]
  | cons n rest ih =>
    intro t hreg
    cases t with
    | skip => simp [Tensor.nodeAbove]
    | leaf a => simp [Tensor.regular] at hreg
    | node cs =>
      simp only [Tensor.regular, Bool.and_eq_true, List.all_eq_true] at hreg
      simp only [List.length_cons, Tensor.nodeAbove, List.all_eq_true]
      intro c hc
      exact ih c (hreg.2 c hc)

theorem getElem_total {α : Type} :
    ∀ (idxs : PIdx) (t : Tensor α), t.nodeAbove idxs.length = true →
      (t.isSkip = false ∨ idxs = []) → ∃ u, getElem! idxs t = .ok u := by
  intro idxs
  induction idxs with
  | nil => intro t _ _; exact ⟨t, rfl⟩
  | cons i rest ih =>
    intro t hna hsk
    rcases hsk with hsk | hne
    · cases t with
      | skip => simp [Tensor.isSkip] at hsk
      | leaf a => simp [Tensor.nodeAbove] at hna
      | node cs =>
        simp only [List.length_cons, Tensor.nodeAbove, List.all_eq_true] at hna
        cases i with
        | some k =>
          by_cases hk : k < cs.length
          · by_cases hcs : (cs.getD k Tensor.skip).isSkip = true
            · have hcs2 : cs[k].isSkip = true := by
                rw [List.getD_eq_getElem _ _ hk] at hcs; exact hcs
              exact ⟨.skip, by simp [getElem!, hk, hcs2]⟩
            · obtain ⟨u, hu⟩ := ih (cs.getD k Tensor.skip)
                (hna _ (getD_mem cs k _ hk)) (Or.inl (by simpa using hcs))
              have hcs2 : ¬ cs[k].isSkip = true := by
                rw [List.getD_eq_getElem _ _ hk] at hcs; exact hcs
              have hu2 : getElem! rest cs[k] = .ok u := by
                rw [List.getD_eq_getElem _ _ hk] at hu; exact hu
              exact ⟨u, by simp [getElem!, hk, hcs2, hu2]⟩
          · exact ⟨.skip, by simp [getElem!, hk]⟩
        | none =>
          have hpt : ∀ c ∈ cs,
              ∃ y, (if c.isSkip then Except.ok Tensor.skip else getElem! rest c) = .ok y := by
            intro c hc
            by_cases hcs : c.isSkip = true
            · exact ⟨.skip, by simp [hcs]⟩
            · obtain ⟨u, hu⟩ := ih c (hna c hc) (Or.inl (by simpa using hcs))
              exact ⟨u, by simp [hcs, hu]⟩
          obtain ⟨ys, hys⟩ := mapE_exists_ok _ cs hpt
          exact ⟨.node ys, by simp [getElem!, hys]⟩
    · simp at hne

theorem getElem_grid {α : Type} :
    ∀ (dims : List Nat) (g : List Nat → Tensor α) (ix : List Nat),
      allLt ix dims = true → getElem! (ix.map some) (grid dims g) = .ok (g ix) := by
  intro dims
  induction dims with
  | nil =>
    intro g ix h
    have hix : ix = [] := (allLt_nil_iff ix).1 h
    subst hix
    rfl
  | cons n rest ih =>
    intro g ix h
    cases ix with
    | nil => exact absurd (allLt_length h) (by simp)
    | cons i is =>
      obtain ⟨hin, hrest⟩ := (allLt_cons i n is rest).1 h
      have hlen : i < ((List.range n).map (fun j => grid rest (fun ix => g (j :: ix)))).length := by
        simpa using hin
      have hchild : ((List.range n).map
          (fun j => grid rest (fun ix => g (j :: ix)))).getD i .skip
          = grid rest (fun ix => g (i :: ix)) := getD_map_range n i _ _ hin
      show getElem! (some i :: is.map some)
        (.node ((List.range n).map (fun j => grid rest (fun ix => g (j :: ix))))) = .ok (g (i :: is))
      simp only [getElem!]
      rw [if_pos hlen, hchild]
      by_cases hsk : (grid rest (fun ix => g (i :: ix))).isSkip = true
      · cases rest with
        | nil =>
          have his : is = [] := (allLt_nil_iff is).1 hrest
          subst his
          have hg : g [i] = Tensor.skip := (Tensor.isSkip_iff _).1 (by simpa [grid] using hsk)
          simp [hsk, hg]
        | cons m ms => simp [grid, Tensor.isSkip] at hsk
      · rw [if_neg hsk]
        simpa using ih (fun ix => g (i :: ix)) is hrest

theorem gridM_ok {α : Type} :
    ∀ (dims : List Nat) (f : List Nat → Except String (Tensor α)) (g : List Nat → Tensor α),
      (∀ ix, allLt ix dims = true → f ix = .ok (g ix)) →
      gridM dims f = .ok (grid dims g) := by
  intro dims
  induction dims with
  | nil =>
    intro f g h
    have := h [] (by simp [allLt])
    simpa [gridM, grid] using this
  | cons n rest ih =>
    intro f g h
    have hpt : ∀ i ∈ List.range n,
        gridM rest (fun ix => f (i :: ix)) = .ok (grid rest (fun ix => g (i :: ix))) := by
      intro i hi
      apply ih
      intro ix hix
      exact h (i :: ix) ((allLt_cons _ _ _ _).2 ⟨List.mem_range.1 hi, hix⟩)
    have := mapE_ok_map _ _ (List.range n) hpt
    simp [gridM, grid, this]

theorem padTensor_grid {α : Type} :
    ∀ (dims : List Nat) (g : List Nat → Tensor α),
      padTensor dims (grid dims g) = grid dims g := by
  intro dims
  induction dims with
  | nil => intro g; rfl
  | cons n rest ih =>
    intro g
    simp only [grid, padTensor]
    congr 1
    apply List.map_congr_left
    intro i hi
    have hin : i < n := List.mem_range.1 hi
    have hlen : i < ((List.range n).map (fun j => grid rest (fun ix => g (j :: ix)))).length := by
      simpa using hin
    rw [if_pos hlen, getD_map_range n i _ _ hin, ih]

theorem setElem_getElem {α : Type} :
    ∀ (rest : List Nat) (i : Nat) (cs : List (Tensor α)) (v : Tensor α),
      Tensor.nodeAbove (.node cs) (rest.length + 1) = true →
      ∃ cs2, setElem ((i :: rest).map some) (.node cs) v = .ok (.node cs2) ∧
        getElem! ((i :: rest).map some) (.node cs2) = .ok v := by
  intro rest
  induction rest with
  | nil =>
    intro i cs v _
    refine ⟨(extendTo cs i).set i v, by simp [setElem], ?_⟩
    have hlt : i < ((extendTo cs i).set i v).length := by
      simpa using extendTo_lt cs i
    have hD : ((extendTo cs i).set i v).getD i Tensor.skip = v :=
      getD_set_self _ _ _ _ (by simpa using extendTo_lt cs i)
    show getElem! (some i :: ([] : List Nat).map some) _ = _
    simp only [List.map_nil, getElem!]
    rw [if_pos hlt, hD]
    by_cases hsk : v.isSkip = true
    · have hv := (Tensor.isSkip_iff v).1 hsk
      rw [if_pos hsk, hv]
    · rw [if_neg hsk]
  | cons j rs ih =>
    intro i cs v hna
    have hna2 : ∀ c ∈ cs, c.nodeAbove (rs.length + 1) = true := by
      simpa [Tensor.nodeAbove, List.all_eq_true] using hna
    have key : ∃ cs1,
        (if ((extendTo cs i).getD i Tensor.skip).isSkip then Tensor.node []
         else (extendTo cs i).getD i Tensor.skip) = .node cs1 ∧
        Tensor.nodeAbove (.node cs1) (rs.length + 1) = true := by
      by_cases hsk : ((extendTo cs i).getD i Tensor.skip).isSkip = true
      · exact ⟨[], by rw [if_pos hsk], by simp [Tensor.nodeAbove]⟩
      · have heq : (extendTo cs i).getD i Tensor.skip = cs.getD i Tensor.skip ∧
            i < cs.length := by
          by_cases hi : i < cs.length
          · exact ⟨by rw [extendTo_getD, if_pos hi], hi⟩
          · exfalso
            apply hsk
            rw [extendTo_getD, if_neg hi]
            rfl
        have hna1 : (cs.getD i Tensor.skip).nodeAbove (rs.length + 1) = true :=
          hna2 _ (getD_mem cs i _ heq.2)
        rw [heq.1] at hsk ⊢
        cases hcd : cs.getD i Tensor.skip with
        | skip => rw [hcd] at hsk; simp [Tensor.isSkip] at hsk
        | leaf a => rw [hcd] at hna1; simp [Tensor.nodeAbove] at hna1
        | node cs1 =>
          rw [hcd] at hna1
          exact ⟨cs1, by simp [Tensor.isSkip], hna1⟩
    obtain ⟨cs1, hcs1, hna1⟩ := key
    obtain ⟨cs2, hset, hget⟩ := ih j cs1 v hna1
    simp only [List.map_cons] at hset hget
    refine ⟨(extendTo cs i).set i (.node cs2), ?_, ?_⟩
    · show setElem (some i :: (j :: rs).map some) (.node cs) v = _
      simp only [setElem, List.map_cons, List.isEmpty_cons]
      rw [if_neg Bool.false_ne_true, hcs1, hset]
    · have hlt : i < ((extendTo cs i).set i (Tensor.node cs2)).length := by
        simpa using extendTo_lt cs i
      have hD : ((extendTo cs i).set i (Tensor.node cs2)).getD i Tensor.skip
          = Tensor.node cs2 :=
        getD_set_self (extendTo cs i) i (Tensor.node cs2) Tensor.skip
          (by simpa using extendTo_lt cs i)
      show getElem! (some i :: (j :: rs).map some) _ = _
      simp only [List.map_cons, getElem!]
      rw [if_pos hlt, hD]
      rw [if_neg (by simp [Tensor.isSkip])]
      exact hget

theorem getElem_oob {α : Type} :
    ∀ (ixs shape : List Nat) (cs : List (Tensor α)),
      Tensor.regular (.node cs) shape = true → ixs.length = shape.length →
      hasOob ixs shape = true →
      getElem! (ixs.map some) (.node cs) = .ok .skip := by
  intro ixs
  induction ixs with
  | nil =>
    intro shape cs _ hlen hoob
    cases shape with
    | nil => simp [hasOob] at hoob
    | cons n ss => simp at hlen
  | cons i is ih =>
    intro shape cs hreg hlen hoob
    cases shape with
    | nil => simp at hlen
    | cons n ss =>
      simp only [Tensor.regular, Bool.and_eq_true, beq_iff_eq, List.all_eq_true] at hreg
      obtain ⟨hcslen, hregall⟩ := hreg
      have hlen2 : is.length = ss.length := by simpa using hlen
      rcases (hasOob_cons i n is ss).1 hoob with hle | hrest
      · have hni : ¬ i < cs.length := by omega
        simp [getElem!, hni]
      · by_cases hi : i < cs.length
        · by_cases hsk : cs[i].isSkip = true
          · simp [getElem!, hi, hsk]
          · have hregc : cs[i].regular ss = true := hregall _ (List.getElem_mem hi)
            cases hcd : cs[i] with
            | skip => rw [hcd] at hsk; simp [Tensor.isSkip] at hsk
            | leaf a =>
              rw [hcd] at hregc
              cases ss with
              | nil =>
                have his : is = [] := by simpa using hlen2
                subst his
                simp [hasOob] at hrest
              | cons m ms => simp [Tensor.regular] at hregc
            | node cs2 =>
              cases ss with
              | nil =>
                have his : is = [] := by simpa using hlen2
                subst his
                simp [hasOob] at hrest
              | cons m ms =>
                rw [hcd] at hregc hsk
                have hrec := ih (m :: ms) cs2 hregc (by simpa using hlen2) hrest
                simp [getElem!, hi, hcd, hsk, hrec]
        · simp [getElem!, hi]

theorem get_total {α : Type} (r : Reference α) (kwargs : List (String × Nat))
    (hwf : r.wfB = true) (hkeys : keysValid r.axes kwargs = true) :
    ∃ t, r.get kwargs = .ok t := by
  simp only [Reference.wfB, Bool.and_eq_true, beq_iff_eq, Bool.or_eq_true] at hwf
  obtain ⟨⟨hlen, hreg⟩, hroot⟩ := hwf
  have hna : r.data.nodeAbove r.shape.length = true := regular_nodeAbove _ _ hreg
  have hidxlen : (resolveIdx r.axes kwargs).length = r.shape.length := by
    simp [resolveIdx, hlen]
  rw [← hidxlen] at hna
  have hdisj : r.data.isSkip = false ∨ resolveIdx r.axes kwargs = [] := by
    rcases hroot with h | h
    · right
      have hsh : r.shape = [] := by simpa [List.isEmpty_iff] using h
      have : (resolveIdx r.axes kwargs).length = 0 := by rw [hidxlen, hsh]; rfl
      simpa using this
    · left
      simpa using h
  obtain ⟨u, hu⟩ := getElem_total _ _ hna hdisj
  exact ⟨u, by simp [Reference.get, hkeys, hu]⟩

/-! Claim theorems. -/

/-- C5 counterexample: on the rank-0 reference `Reference([], ())` the
claimed set-then-get round trip does not return the set value — `set`
raises (`data[:] = 5` on the non-list data), so the claim fails at the
empty full index of a zero-axis reference. -/
theorem c5_counterexample_rank0 :
    (c5r0.set [] (Tensor.leaf 5)).bind (fun r2 => r2.get []) = .error "TypeError" ∧
    (c5r0.set [] (Tensor.leaf 5)).bind (fun r2 => r2.get [])
      ≠ .ok (Tensor.leaf 5) := by
  refine ⟨rfl, ?_⟩
  intro h
  rw [show (c5r0.set [] (Tensor.leaf 5)).bind (fun r2 => r2.get [])
      = .error "TypeError" from rfl] at h
  exact Except.noConfusion h

/-- C5 (amended): for every well-formed reference with at least one axis
and duplicate-free axis names, and every full index with one integer
position per axis, each within the declared shape, `set` followed by `get`
at the same index returns exactly the set value — for scalar values, for
the ABSENT sentinel, and indeed for any storable value. -/
theorem c5_set_get_roundtrip {α : Type} (r : Reference α) (ixs : List Nat)
    (v : Tensor α) (hwf : r.wfB = true) (hnd : nodupB r.axes = true)
    (hax : r.axes ≠ []) (hlt : allLt ixs r.shape = true) :
    ∃ r2, r.set (r.axes.zip ixs) v = .ok r2 ∧ r2.get (r.axes.zip ixs) = .ok v := by
  obtain ⟨axes, shape, data⟩ := r
  simp only [Reference.wfB, Bool.and_eq_true, beq_iff_eq, Bool.or_eq_true] at hwf
  obtain ⟨⟨hlen, hreg⟩, hroot⟩ := hwf
  simp only at hnd hax hlt ⊢
  have hixlen : ixs.length = shape.length := allLt_length hlt
  have haxlen : axes.length = ixs.length := by rw [hlen, hixlen]
  have hkeys : keysValid axes (axes.zip ixs) = true :=
    keysValid_zip _ _ _ (fun a ha => ha)
  have hres : resolveIdx axes (axes.zip ixs) = ixs.map some :=
    lookup_zip_self _ _ hnd haxlen
  cases shape with
  | nil =>
    exfalso
    apply hax
    have : axes.length = 0 := by rw [hlen]; rfl
    simpa using this
  | cons n ss =>
    cases data with
    | skip => simp [Tensor.isSkip] at hroot
    | leaf a => simp [Tensor.regular] at hreg
    | node cs =>
      cases ixs with
      | nil => simp at hixlen
      | cons i is =>
        have hna : (Tensor.node cs).nodeAbove (is.length + 1) = true := by
          have := regular_nodeAbove (n :: ss) (Tensor.node cs) hreg
          have hl : (n :: ss).length = is.length + 1 := by
            rw [← hixlen]; rfl
          rw [hl] at this
          exact this
        obtain ⟨cs2, hset, hget⟩ := setElem_getElem is i cs v hna
        simp only [List.map_cons] at hset hget
        refine ⟨⟨axes, n :: ss, .node cs2⟩, ?_, ?_⟩
        · simp [Reference.set, hkeys, hres, hset]
        · simp [Reference.get, hkeys, hres, hget]

/-- C5 witness: the round trip instantiated on a concrete 2 by 2 reference
at index (x=1, y=0) with value 9. -/
theorem c5_witness :
    c5wr.wfB = true ∧ nodupB c5wr.axes = true ∧ c5wr.axes ≠ [] ∧
    allLt [1, 0] c5wr.shape = true ∧
    ∃ r2, c5wr.set (c5wr.axes.zip [1, 0]) (Tensor.leaf 9) = .ok r2 ∧
      r2.get (c5wr.axes.zip [1, 0]) = .ok (Tensor.leaf 9) :=
  ⟨rfl, rfl, by decide, rfl,
    c5_set_get_roundtrip c5wr [1, 0] (Tensor.leaf 9) rfl rfl (by decide) rfl⟩

/-- C10: for a well-formed reference, `get` with axis keywords that all
name valid axes never raises (it returns some value); with a full index
whose positions overrun the data's extent somewhere, it returns the ABSENT
sentinel instead of an index error; and it raises `KeyError` exactly when
an unknown axis name is supplied. -/
theorem c10_get_total_oob_absent {α : Type} (r : Reference α) (ixs : List Nat)
    (kwargs : List (String × Nat)) (k : String) (v : Nat) :
    (r.wfB = true → keysValid r.axes kwargs = true → ∃ t, r.get kwargs = .ok t)
    ∧ (r.wfB = true → nodupB r.axes = true → r.axes.length = ixs.length →
        hasOob ixs r.shape = true → r.get (r.axes.zip ixs) = .ok .skip)
    ∧ ((k, v) ∈ kwargs → r.axes.contains k = false →
        r.get kwargs = .error "KeyError") := by
  refine ⟨fun hwf hkeys => get_total r kwargs hwf hkeys, ?_, ?_⟩
  · intro hwf hnd hlen hoob
    obtain ⟨axes, shape, data⟩ := r
    simp only [Reference.wfB, Bool.and_eq_true, beq_iff_eq, Bool.or_eq_true] at hwf
    obtain ⟨⟨hlen2, hreg⟩, hroot⟩ := hwf
    simp only at hnd hlen hoob ⊢
    cases shape with
    | nil => simp [hasOob] at hoob
    | cons n ss =>
      have hkeys : keysValid axes (axes.zip ixs) = true :=
        keysValid_zip _ _ _ (fun a ha => ha)
      cases data with
      | skip => simp [Tensor.isSkip] at hroot
      | leaf a => simp [Tensor.regular] at hreg
      | node cs =>
        have hres : resolveIdx axes (axes.zip ixs) = ixs.map some :=
          lookup_zip_self _ _ hnd hlen
        have hoo := getElem_oob ixs (n :: ss) cs hreg (by rw [← hlen, hlen2]) hoob
        simp [Reference.get, hkeys, hres, hoo]
  · intro hmem hcon
    have hkv : keysValid r.axes kwargs = false := by
      by_cases h : keysValid r.axes kwargs = true
      · exfalso
        simp only [keysValid] at h
        have h2 := List.all_eq_true.1 h (k, v) hmem
        simp only at h2
        rw [hcon] at h2
        exact Bool.noConfusion h2
      · simpa using h
    simp [Reference.get, hkv]

/-- C10 witness: the three parts instantiated on the concrete 2 by 2
reference — a valid full get succeeds, position 5 on axis x yields ABSENT,
and the unknown axis w raises `KeyError`. -/
theorem c10_witness :
    c5wr.wfB = true ∧ keysValid c5wr.axes [("x", 0), ("y", 1)] = true ∧
    (∃ t, c5wr.get [("x", 0), ("y", 1)] = .ok t) ∧
    nodupB c5wr.axes = true ∧ c5wr.axes.length = [5, 0].length ∧
    hasOob [5, 0] c5wr.shape = true ∧
    c5wr.get (c5wr.axes.zip [5, 0]) = .ok .skip ∧
    ("w", 9) ∈ [("x", 0), ("w", 9)] ∧ c5wr.axes.contains "w" = false ∧
    c5wr.get [("x", 0), ("w", 9)] = .error "KeyError" := by
  refine ⟨rfl, rfl, ?_, rfl, rfl, rfl, ?_, by decide, rfl, ?_⟩
  · exact (c10_get_total_oob_absent c5wr [5, 0] [("x", 0), ("y", 1)] "w" 9).1 rfl rfl
  · exact (c10_get_total_oob_absent c5wr [5, 0] [("x", 0), ("y", 1)] "w" 9).2.1
      rfl rfl rfl rfl
  · exact (c10_get_total_oob_absent c5wr [5, 0] [("x", 0), ("w", 9)] "w" 9).2.2
      (by decide) rfl

/-- C6 counterexample: projecting the rank-3 reference `c6r` onto axis x
leaves the cell at x = 0 equal to its sub-tensor [[1, ABSENT], [2, 3]],
which contains an ABSENT cell strictly below its top level and yet is not
collapsed to ABSENT — refuting the claim that any ABSENT anywhere inside
the sub-tensor collapses it. -/
theorem c6_counterexample_nested :
    (c6r.slice ["x"]).bind (fun R => R.get [("x", 0)])
      = .ok (Tensor.node [Tensor.node [Tensor.leaf 1, Tensor.skip],
          Tensor.node [Tensor.leaf 2, Tensor.leaf 3]]) ∧
    Tensor.containsSkip (Tensor.node [Tensor.node [Tensor.leaf 1, Tensor.skip],
        Tensor.node [Tensor.leaf 2, Tensor.leaf 3]]) = true ∧
    Tensor.isSkip (Tensor.node [Tensor.node [Tensor.leaf 1, Tensor.skip],
        Tensor.node [Tensor.leaf 2, Tensor.leaf 3]]) = false :=
  ⟨rfl, by simp [Tensor.containsSkip, Tensor.isSkip], rfl⟩

/-- C6 (amended): for every well-formed reference and every valid
non-empty duplicate-free axis selection, the projection succeeds, and its
cell at each fully-specified selected index is the `collapseTop` of the
original `get` at that index: the sub-tensor is collapsed to ABSENT
exactly when it is itself ABSENT or has an ABSENT among its top-level
elements; ABSENT cells nested deeper do not trigger the collapse. -/
theorem c6_slice_collapse_amended {α : Type} (r : Reference α) (sel : List String)
    (ix : List Nat) (hwf : r.wfB = true)
    (hsub : sel.all (fun a => r.axes.contains a) = true)
    (hnd : nodupB sel = true) (hne : sel ≠ [])
    (hbound : allLt ix (sel.map (axisExtent r)) = true) :
    ∃ R cell, r.slice sel = .ok R ∧ r.get (sel.zip ix) = .ok cell ∧
      R.get (sel.zip ix) = .ok (collapseTop cell) := by
  have hsubm : ∀ a ∈ sel, a ∈ r.axes := by
    intro a ha
    have := List.all_eq_true.1 hsub a ha
    simpa using this
  have hkeysr : ∀ ix2 : List Nat, keysValid r.axes (sel.zip ix2) = true := by
    intro ix2
    exact keysValid_zip _ _ _ hsubm
  have hcellf : ∀ ix2 : List Nat, allLt ix2 (sel.map (axisExtent r)) = true →
      (r.get (sel.zip ix2)).map collapseTop
        = .ok ((fun ix3 =>
            match r.get (sel.zip ix3) with
            | .ok c => collapseTop c
            | .error _ => .skip) ix2) := by
    intro ix2 _
    obtain ⟨cell, hcell⟩ := get_total r (sel.zip ix2) hwf (hkeysr ix2)
    show (r.get (sel.zip ix2)).map collapseTop
      = .ok (match r.get (sel.zip ix2) with
             | .ok c => collapseTop c
             | .error _ => .skip)
    rw [hcell]
    rfl
  have hgrid := gridM_ok (sel.map (axisExtent r))
    (fun ix2 => (r.get (sel.zip ix2)).map collapseTop)
    (fun ix3 =>
      match r.get (sel.zip ix3) with
      | .ok c => collapseTop c
      | .error _ => .skip)
    hcellf
  obtain ⟨cell, hcell⟩ := get_total r (sel.zip ix) hwf (hkeysr ix)
  have hselne : sel.isEmpty = false := by
    cases sel with
    | nil => exact absurd rfl hne
    | cons a as => rfl
  refine ⟨⟨sel, sel.map (axisExtent r),
      padTensor (sel.map (axisExtent r))
        (grid (sel.map (axisExtent r))
          (fun ix3 =>
            match r.get (sel.zip ix3) with
            | .ok c => collapseTop c
            | .error _ => .skip))⟩, cell, ?_, hcell, ?_⟩
  · simp [Reference.slice, hsub, hnd, hselne, hgrid]
    exact hsubm
  · have hlen : sel.length = ix.length := by
      have := allLt_length hbound
      simpa using this.symm
    have hres : resolveIdx sel (sel.zip ix) = ix.map some :=
      lookup_zip_self _ _ hnd hlen
    have hkeys2 : keysValid sel (sel.zip ix) = true :=
      keysValid_zip _ _ _ (fun a ha => ha)
    have hg := getElem_grid (sel.map (axisExtent r))
      (fun ix3 =>
        match r.get (sel.zip ix3) with
        | .ok c => collapseTop c
        | .error _ => .skip) ix hbound
    show (if keysValid sel (sel.zip ix) = true
        then getElem! (resolveIdx sel (sel.zip ix))
          (padTensor (sel.map (axisExtent r))
            (grid (sel.map (axisExtent r))
              (fun ix3 =>
                match r.get (sel.zip ix3) with
                | .ok c => collapseTop c
                | .error _ => .skip)))
        else .error "KeyError") = .ok (collapseTop cell)
    rw [if_pos hkeys2, hres, padTensor_grid, hg]
    show Except.ok (match r.get (sel.zip ix) with
      | .ok c => collapseTop c
      | .error _ => .skip) = .ok (collapseTop cell)
    rw [hcell]

/-- C6 witness: the amended collapse law instantiated on the 2 by 2
reference projected onto axis x at index 1, whose sub-tensor [ABSENT, 4]
has a top-level ABSENT and is collapsed. -/
theorem c6_witness :
    c5wr.wfB = true ∧ (["x"].all (fun a => c5wr.axes.contains a)) = true ∧
    nodupB ["x"] = true ∧ (["x"] : List String) ≠ [] ∧
    allLt [1] (["x"].map (axisExtent c5wr)) = true ∧
    ∃ R cell, c5wr.slice ["x"] = .ok R ∧ c5wr.get (["x"].zip [1]) = .ok cell ∧
      R.get (["x"].zip [1]) = .ok (collapseTop cell) :=
  ⟨rfl, rfl, rfl, by decide, rfl,
    c6_slice_collapse_amended c5wr ["x"] [1] rfl rfl rfl (by decide) rfl⟩

/-- C1 counterexample: a stored cell that is not callable (the plain
integer 0) makes `cross_action` raise `TypeError` — the `callable` guard
sits outside the `try` — instead of degrading that cell to ABSENT as the
claim states. -/
theorem c1_counterexample :
    c1A.get [("x", 0)] = .ok (Tensor.leaf 0) ∧
    cellCallable neverCallable (Tensor.leaf 0) = false ∧
    cross_action neverCallable noCall c1A c2vals "r"
      = .error "TypeError: element in A is not a callable function" :=
  ⟨rfl, rfl, rfl⟩

/-- C1 (amended): at a fully-specified cell of `cross_action`'s builder,
if A's cell is ABSENT, or B's cell is ABSENT, or A's cell is a callable
whose invocation raises, the result cell is ABSENT and no exception
escapes; but when both cells are present and A's cell is not callable, the
builder raises `TypeError` for that cell. -/
theorem c1_cell_absent_amended {γ β : Type} (isC : γ → Bool)
    (call : γ → Tensor β → Except String (Tensor β))
    (A : Reference γ) (B : Reference β) (idx : List (String × Nat))
    (fc : Tensor γ) (vc : Tensor β)
    (hA : A.get (restrictIdx A.axes idx) = .ok fc)
    (hB : B.get (restrictIdx B.axes idx) = .ok vc) :
    ((fc.isSkip || vc.isSkip) = true ∨
        (∃ g e, fc = .leaf g ∧ isC g = true ∧ call g vc = .error e) →
      crossActionCell isC call A B idx = .ok .skip)
    ∧ (fc.isSkip = false → vc.isSkip = false → cellCallable isC fc = false →
      ∃ e, crossActionCell isC call A B idx = .error e) := by
  constructor
  · intro h
    rcases h with hsk | ⟨g, e, hfc, hic, herr⟩
    · simp [crossActionCell, hA, hB, hsk]
    · subst hfc
      by_cases hv : vc.isSkip = true
      · simp [crossActionCell, hA, hB, Tensor.isSkip_leaf, hv]
      · simp [crossActionCell, hA, hB, Tensor.isSkip_leaf, hv, hic, herr]
  · intro h1 h2 h3
    cases fc with
    | skip => simp [Tensor.isSkip] at h1
    | leaf g =>
      have hic : isC g = false := by simpa [cellCallable] using h3
      exact ⟨"TypeError: element in A is not a callable function",
        by simp [crossActionCell, hA, hB, Tensor.isSkip_leaf, h2, hic]⟩
    | node cs =>
      exact ⟨"TypeError: element in A is not a callable function",
        by simp [crossActionCell, hA, hB, Tensor.isSkip_node, h2]⟩

/-- C1 witness: an ABSENT function cell yields an ABSENT result cell
without raising, and a present non-callable cell makes the builder
raise. -/
theorem c1_witness :
    c1Askip.get (restrictIdx c1Askip.axes [("x", 0), ("y", 0)]) = .ok Tensor.skip ∧
    c2vals.get (restrictIdx c2vals.axes [("x", 0), ("y", 0)]) = .ok (Tensor.leaf 1) ∧
    crossActionCell neverCallable noCall c1Askip c2vals [("x", 0), ("y", 0)]
      = .ok .skip ∧
    (∃ e, crossActionCell neverCallable noCall c1A c2vals [("x", 0), ("y", 0)]
      = .error e) := by
  refine ⟨rfl, rfl, ?_, ?_⟩
  · exact (c1_cell_absent_amended neverCallable noCall c1Askip c2vals
      [("x", 0), ("y", 0)] Tensor.skip (Tensor.leaf 1) rfl rfl).1 (Or.inl rfl)
  · exact (c1_cell_absent_amended neverCallable noCall c1A c2vals
      [("x", 0), ("y", 0)] (Tensor.leaf 0) (Tensor.leaf 1) rfl rfl).2 rfl rfl rfl

/-- C2 (code slip): a function cell returning the non-list 5 does NOT make
`cross_action` raise — the deliberate `TypeError` is raised inside the
`try` block and swallowed by its own blanket `except Exception`, so the
cell silently degrades to ABSENT (and the trailing-axis extent is then
read off the sentinel string as len("@#SKIP#@") = 8); the claim says this
fails fast. -/
theorem c2_nonlist_return_swallowed :
    cross_action alwaysCallable applyFn c2funcs c2vals "r"
      = .ok (⟨["x", "y", "r"], [1, 1, 8],
          .node [.node [.node (List.replicate 8 Tensor.skip)]]⟩ : Reference Int) ∧
    (cross_action alwaysCallable applyFn c2funcs c2vals "r").bind
      (fun R => R.get [("x", 0), ("y", 0), ("r", 0)]) = .ok .skip :=
  ⟨rfl, rfl⟩

/-- C3: `element_action` with elementwise addition over two 2 by 2 integer
tensors on axes (x, y) with no ABSENT cell is ordinary matrix addition;
and on A = [[1,2],[ABSENT,4]], B = [[3,4],[5,6]] it returns
[[4,6],[ABSENT,10]] — exactly the output cell aligned with the ABSENT
input is ABSENT. -/
theorem c3_element_action_addition :
    (∀ a00 a01 a10 a11 b00 b01 b10 b11 : Int,
      element_action addCell
        [⟨["x", "y"], [2, 2],
          .node [.node [.leaf a00, .leaf a01], .node [.leaf a10, .leaf a11]]⟩,
         ⟨["x", "y"], [2, 2],
          .node [.node [.leaf b00, .leaf b01], .node [.leaf b10, .leaf b11]]⟩]
        false
      = .ok ⟨["x", "y"], [2, 2],
          .node [.node [.leaf (a00 + b00), .leaf (a01 + b01)],
                 .node [.leaf (a10 + b10), .leaf (a11 + b11)]]⟩)
    ∧ element_action addCell [c3A, c3B] false
      = .ok ⟨["x", "y"], [2, 2],
          .node [.node [.leaf 4, .leaf 6], .node [.skip, .leaf 10]]⟩ := by
  constructor
  · intro a00 a01 a10 a11 b00 b01 b10 b11
    rfl
  · rfl

/-- C4: the `cross_action` worked example — functions on axis x applied to
values on axis y — yields a rank-3 reference with axes (x, y, result) and
shape (3, 3, 2); its cell list at (x=0, y=0) is [5, 10], at (x=1, y=1) it
is [4, 2], and every scalar cell with x=2 or y=2 is ABSENT. -/
theorem c4_cross_action_example :
    (c4result.map (fun R => R.axes) = .ok ["x", "y", "result"])
    ∧ (c4result.map (fun R => R.shape) = .ok [3, 3, 2])
    ∧ (c4result.bind (fun R => R.get [("x", 0), ("y", 0)])
        = .ok (Tensor.node [Tensor.leaf 5, Tensor.leaf 10]))
    ∧ (c4result.bind (fun R => R.get [("x", 1), ("y", 1)])
        = .ok (Tensor.node [Tensor.leaf 4, Tensor.leaf 2]))
    ∧ ((List.range 3).all (fun x => (List.range 3).all (fun y =>
        (List.range 2).all (fun rr =>
          !(x == 2 || y == 2) ||
            okIsSkip (c4result.bind
              (fun R => R.get [("x", x), ("y", y), ("result", rr)]))))) = true) :=
  ⟨rfl, rfl, rfl, rfl, rfl⟩

/-- C7: over the three inferences producing B from A, C from B, and D from
A and C, with A and the cognition concepts initial, `order_inference`
returns the B-producer, then the C-producer, then the D-producer, for
every registration order of the three. -/
theorem c7_order_inference_deterministic (reg : List InferenceC)
    (h : reg ∈ [[infB, infC, infD], [infB, infD, infC], [infC, infB, infD],
      [infC, infD, infB], [infD, infB, infC], [infD, infC, infB]]) :
    order_inference c7inputs c7concepts reg = .ok [infB, infC, infD] := by
  fin_cases h <;> rfl

/-- C7 witness: the ordering instantiated at the reversed registration
order. -/
theorem c7_witness :
    [infD, infC, infB] ∈ [[infB, infC, infD], [infB, infD, infC],
      [infC, infB, infD], [infC, infD, infB], [infD, infB, infC],
      [infD, infC, infB]] ∧
    order_inference c7inputs c7concepts [infD, infC, infB]
      = .ok [infB, infC, infD] :=
  ⟨by decide, c7_order_inference_deterministic [infD, infC, infB] (by decide)⟩

/-- C8: a registry of two inferences each consuming the concept the other
produces makes `order_inference` raise the cyclic-dependency error, whose
payload names both stranded inferred concepts, each listed with its
requirements including the unmet one; no ordering is returned. -/
theorem c8_cycle_error (reg : List InferenceC)
    (h : reg ∈ [[cyc1, cyc2], [cyc2, cyc1]]) :
    ∃ info, order_inference c8inputs c8concepts reg = .error (.cyclic info) ∧
      (∃ reqs, ("P1", reqs) ∈ info ∧ "P2" ∈ reqs) ∧
      (∃ reqs, ("P2", reqs) ∈ info ∧ "P1" ∈ reqs) := by
  fin_cases h
  · exact ⟨[("P1", ["P2", "c1"]), ("P2", ["P1", "c2"])], rfl,
      ⟨["P2", "c1"], by decide, by decide⟩, ⟨["P1", "c2"], by decide, by decide⟩⟩
  · exact ⟨[("P2", ["P1", "c2"]), ("P1", ["P2", "c1"])], rfl,
      ⟨["P2", "c1"], by decide, by decide⟩, ⟨["P1", "c2"], by decide, by decide⟩⟩

/-- C8 witness: the cycle error instantiated at one registration order. -/
theorem c8_witness :
    [cyc1, cyc2] ∈ [[cyc1, cyc2], [cyc2, cyc1]] ∧
    ∃ info, order_inference c8inputs c8concepts [cyc1, cyc2]
        = .error (.cyclic info) ∧
      (∃ reqs, ("P1", reqs) ∈ info ∧ "P2" ∈ reqs) ∧
      (∃ reqs, ("P2", reqs) ∈ info ∧ "P1" ∈ reqs) :=
  ⟨by decide, c8_cycle_error [cyc1, cyc2] (by decide)⟩

/-- C9 (code slip): setting a list value at a scalar leaf position of a
rank-1 reference does NOT raise — the list is silently stored at the leaf,
because the "Cannot set a list as a leaf value" guard sits in the branch
reached only when the index list is empty, which happens only for rank-0
references (second conjunct). -/
theorem c9_set_list_leaf_no_raise :
    c9r.set [("x", 0)] (Tensor.node [Tensor.leaf 1, Tensor.leaf 2])
      = .ok (⟨["x"], [3],
          .node [.node [.leaf 1, .leaf 2], .leaf 0, .leaf 0]⟩ : Reference Int) ∧
    c5r0.set [] (Tensor.node [Tensor.leaf 1, Tensor.leaf 2])
      = .error "ValueError: Cannot set a list as a leaf value" :=
  ⟨rfl, rfl⟩

end Npc
